import Mathlib

/-
Verification development for the NumpyDataset materialization pipeline
(`torcheeg/datasets/module/numpy_dataset.py`): block planning
(`__block__`), per-block transformation and persistence (`__io__`), and
the read path (`__getitem__`).

Modelling conventions:
* a NumPy 1-leading-dimension array of samples is a `List σ`;
* the 2-d label array `y` is `NdArray2 β`: the list of its rows together
  with its column count `cols` (`y.shape[1]`); a well-formed array has
  every row of length `cols`;
* the two stores are append-only lists of writes (the source's
  `write_eeg` / `write_info` calls, in order);
* Python exceptions become explicit error values (`IoErr`, `BlockErr`,
  `GetErr`); an error return carries the writes performed before the
  raise, matching the source where earlier iterations have already
  written;
* the temporary `.npy` round trip of `__block__` (np.save followed by
  np.load in `__io__`) is the identity, so a block descriptor carries
  the sliced arrays themselves.
-/

namespace NumpyDS

/-- Errors raised by `__block__`: mixing input representations
(`ValueError` at the end of the function), `np.array_split` with zero
sections (`ValueError`), and `len(X) // 0` (`ZeroDivisionError`). -/
inductive BlockErr
  | configError
  | planningError
  | zeroDivisionError
deriving DecidableEq, Repr

/-- Errors raised by `__io__`: NumPy `IndexError` from `y[wp, i]` and the
`assert` on records returned by `after_trial`. -/
inductive IoErr
  | indexError
  | assertionError
deriving DecidableEq, Repr

/-- Errors raised by `__getitem__`: out-of-range row index and a missing
key (metadata key or signal-store key). -/
inductive GetErr
  | indexError
  | keyError
deriving DecidableEq, Repr

/-- Value stored in a metadata row: the `clip_id` is a string, label
entries carry values of the label array's element type. -/
inductive InfoVal (β : Type)
  | str (s : String)
  | val (b : β)
deriving DecidableEq, Repr

/-- Metadata row: an ordered key-value mapping (Python dict in insertion
order). -/
abbrev Info (β : Type) : Type := List (String × InfoVal β)

/-- Two-dimensional NumPy array: list of rows plus the column count
`y.shape[1]`. -/
structure NdArray2 (β : Type) where
  rows : List (List β)
  cols : Nat
deriving DecidableEq, Repr

/-- Wellformedness of an `NdArray2`: every row has exactly `cols`
entries, as in a true `np.ndarray`. -/
def NdArray2.wf (y : NdArray2 β) : Prop :=
  ∀ r ∈ y.rows, r.length = y.cols

instance (y : NdArray2 β) [DecidableEq β] : Decidable y.wf :=
  List.decidableBAll _ y.rows

/-- Source `f'{block_id}_{write_pointer}'`. -/
def mkClipId (blockId i : Nat) : String :=
  toString blockId ++ "_" ++ toString i

/-- Label entries of one metadata row, `(str j, y[wp][j])` for each
column `j`, in column order. -/
def rowEntries (row : List β) : Info β :=
  row.enum.map (fun p => (toString p.1, InfoVal.val p.2))

/-- Metadata row the spec describes for block `b`, local index `i` and
label row `row`: `clip_id` first, then one entry per label column. -/
def expectedInfoRow (b i : Nat) (row : List β) : Info β :=
  ("clip_id", InfoVal.str (mkClipId b i)) :: rowEntries row

/-- Source `record_info = {'clip_id': clip_id}` updated with
`{f'{i}': y[write_pointer, i] for i in range(y.shape[1])}`.  With zero
columns the comprehension is empty and `y[write_pointer, i]` is never
evaluated, so no `IndexError` can arise; with at least one column,
`y[write_pointer, 0]` raises `IndexError` when `write_pointer` is out of
range, and any row shorter than `cols` (impossible for a well-formed
array) also raises. -/
def recordInfoFor (y : NdArray2 β) (clipId : String) (wp : Nat) :
    Except IoErr (Info β) :=
  if y.cols = 0 then .ok [("clip_id", InfoVal.str clipId)]
  else
    match y.rows.get? wp with
    | none => .error .indexError
    | some row =>
      if y.cols ≤ row.length then
        .ok (("clip_id", InfoVal.str clipId) :: rowEntries (row.take y.cols))
      else .error .indexError

/-- Buffered record of the after-trial queue: the dict
`{'eeg': t_eeg, 'key': clip_id, 'info': record_info}` built by `__io__`. -/
structure Record (σ β : Type) where
  eeg : σ
  key : String
  info : Info β
deriving DecidableEq, Repr

/-- Record as returned by the `after_trial` hook: a dict that may be
missing any of the three required keys. -/
structure RawRecord (σ β : Type) where
  eeg : Option σ
  key : Option String
  info : Option (Info β)
deriving DecidableEq, Repr

/-- View of a complete buffered record as a hook-output record with all
three keys present. -/
def rawOf (r : Record σ β) : RawRecord σ β :=
  ⟨some r.eeg, some r.key, some r.info⟩

/-- State of the two stores: the `write_eeg` writes (key, signal) and
the `write_info` writes, each in write order. -/
structure IoState (σ β : Type) where
  eegWrites : List (String × σ)
  infoWrites : List (Info β)
deriving DecidableEq, Repr

/-- Store state before a block is processed. -/
def emptyState : IoState σ β := ⟨[], []⟩

/-- Optional transform application: `transform(eeg=x)['eeg']` when a
transform is configured, the raw sample otherwise. -/
def applyT (t : Option (σ → σ)) (x : σ) : σ :=
  match t with
  | some f => f x
  | none => x

/-- Main loop of `__io__` over `enumerate(X)` at current write pointer
`wp`.  Builds `t_eeg`, `clip_id` and `record_info`; with `buffered`
(an after-trial hook configured) it appends the record to the trial
queue, otherwise it writes the signal and then the metadata row under
the lock.  A raised `IndexError` aborts the loop, keeping the writes
performed so far. -/
def ioLoop (t : Option (σ → σ)) (buffered : Bool) (blockId : Nat)
    (y : NdArray2 β) :
    List σ → Nat → IoState σ β → List (Record σ β) →
    IoState σ β × List (Record σ β) × Option IoErr
  | [], _, st, q => (st, q, none)
  | x :: xs, wp, st, q =>
    let t_eeg := applyT t x
    let clipId := mkClipId blockId wp
    match recordInfoFor y clipId wp with
    | .error e => (st, q, some e)
    | .ok inf =>
      if buffered then
        ioLoop t buffered blockId y xs (wp + 1) st (q ++ [⟨t_eeg, clipId, inf⟩])
      else
        ioLoop t buffered blockId y xs (wp + 1)
          ⟨st.eegWrites ++ [(clipId, t_eeg)], st.infoWrites ++ [inf]⟩ q

/-- Write loop over the list returned by `after_trial`: for each record,
first the `assert 'eeg' in obj and 'key' in obj and 'info' in obj`, then
the two writes under the lock.  The assert failing aborts the loop,
keeping all earlier records' writes. -/
def writeQueue (st : IoState σ β) :
    List (RawRecord σ β) → IoState σ β × Option IoErr
  | [] => (st, none)
  | obj :: rest =>
    match obj.eeg, obj.key, obj.info with
    | some e, some k, some inf =>
      writeQueue ⟨st.eegWrites ++ [(k, e)], st.infoWrites ++ [inf]⟩ rest
    | _, _, _ => (st, some .assertionError)

/-- Outcome of `__io__` on one block: final store writes and the raised
error, if any. -/
structure IoResult (σ β : Type) where
  state : IoState σ β
  err : Option IoErr
deriving DecidableEq, Repr

/-- Working sample array of `__io__`: `X = before_trial(X)` when the
hook is configured, the loaded array otherwise. -/
def applyBefore (before : Option (List σ → List σ)) (X : List σ) : List σ :=
  match before with
  | some f => f X
  | none => X

/-- Source `__io__` on one block (stores start empty for the block;
concatenation across blocks happens outside).  Applies `before_trial`
to the whole sample array, runs the main loop, and — when an
after-trial hook is configured and the trial queue is non-empty —
passes the queue through the hook and writes its output records. -/
def ioRun (beforeTrial : Option (List σ → List σ)) (t : Option (σ → σ))
    (afterTrial : Option (List (Record σ β) → List (RawRecord σ β)))
    (blockId : Nat) (X0 : List σ) (y : NdArray2 β) : IoResult σ β :=
  let X := applyBefore beforeTrial X0
  match ioLoop t afterTrial.isSome blockId y X 0 emptyState [] with
  | (st, _, some e) => ⟨st, some e⟩
  | (st, q, none) =>
    match afterTrial with
    | some h =>
      if q.isEmpty then ⟨st, none⟩
      else
        match writeQueue st (h q) with
        | (st2, e2) => ⟨st2, e2⟩
    | none => ⟨st, none⟩

/-- Sizes `np.array_split` uses for an array of length `n` split into
`k` sections: the first `n % k` sections get `n / k + 1` elements, the
rest `n / k`. -/
def arraySplitSizes (n k : Nat) : List Nat :=
  (List.range k).map (fun i => if i < n % k then n / k + 1 else n / k)

/-- Split a list into consecutive chunks of the given sizes. -/
def splitBySizes : List α → List Nat → List (List α)
  | _, [] => []
  | l, s :: ss => l.take s :: splitBySizes (l.drop s) ss

/-- Source `np.array_split(l, k)` for `k ≥ 1`. -/
def arraySplit (l : List α) (k : Nat) : List (List α) :=
  splitBySizes l (arraySplitSizes l.length k)

/-- Index groups of the array branch of `__block__`:
`np.array_split(np.arange(N), N // q)`.  `q = 0` raises
`ZeroDivisionError` in `len(X) // q`; `N // q = 0` makes
`np.array_split` raise (`number sections must be larger than 0.`). -/
def blockPlanArray (N q : Nat) : Except BlockErr (List (List Nat)) :=
  if q = 0 then .error .zeroDivisionError
  else if N / q = 0 then .error .planningError
  else .ok (arraySplit (List.range N) (N / q))

/-- Number of index groups `__block__` produces for array input, when it
succeeds. -/
def blockCount (N q : Nat) : Option Nat :=
  match blockPlanArray N q with
  | .ok gs => some gs.length
  | .error _ => none

/-- NumPy fancy indexing `X[sample_indices]` for in-range indices. -/
def sliceAt (X : List σ) (idxs : List Nat) : List σ :=
  idxs.filterMap (fun i => X.get? i)

/-- The `X` argument of `__block__`: an in-memory array or a list of
file paths (`X_str` in the source). -/
inductive XInput (σ : Type)
  | arr (a : List σ)
  | paths (ps : List String)
deriving DecidableEq, Repr

/-- The `y` argument of `__block__`: an in-memory 2-d label array or a
list of file paths (`y_str` in the source). -/
inductive YInput (β : Type)
  | arr (m : NdArray2 β)
  | paths (ps : List String)
deriving DecidableEq, Repr

/-- Block descriptor returned by `__block__` — a `(X path, y path,
block_id)` triple for path input; for array input the source saves the
slices to `tmp/` and returns their paths, and since the `.npy` round
trip is the identity the descriptor carries the slices themselves. -/
inductive BlockDescr (σ β : Type)
  | fromPaths (xp yp : String) (id : Nat)
  | fromArrays (Xb : List σ) (yb : NdArray2 β) (id : Nat)
deriving DecidableEq, Repr

/-- Source `__block__`: path lists are zipped and enumerated; two
ndarrays go through `np.array_split` block planning with each group
sliced out of `X` and `y`; any other combination raises `ValueError`. -/
def blockDispatch (X : XInput σ) (y : YInput β) (q : Nat) :
    Except BlockErr (List (BlockDescr σ β)) :=
  match X, y with
  | .paths xs, .paths ys =>
    .ok ((xs.zip ys).enum.map (fun p => .fromPaths p.2.1 p.2.2 p.1))
  | .arr a, .arr m => do
    let groups ← blockPlanArray a.length q
    .ok (groups.enum.map
      (fun p => .fromArrays (sliceAt a p.2) ⟨sliceAt m.rows p.2, m.cols⟩ p.1))
  | _, _ => .error .configError

/-- Lookup of a key in a metadata row, `info[k]`. -/
def infoGet (info : Info β) (k : String) : Option (InfoVal β) :=
  (info.find? (fun p => p.1 == k)).map Prod.snd

/-- Python `str(...)` on a metadata value. -/
def strOfVal [ToString β] : InfoVal β → String
  | .str s => s
  | .val b => toString b

/-- Read of the keyed signal store: the value most recently written
under the key (an LMDB put overwrites). -/
def readStore (s : List (String × σ)) (k : String) : Option σ :=
  (s.reverse.find? (fun p => p.1 == k)).map Prod.snd

/-- Source `__getitem__`: read the metadata row at `index`, read the
signal keyed by `str(info['clip_id'])`, apply the online transform to
the signal when configured, apply the label transform to the full
metadata row when configured (taking its designated `'y'` output
field, of type `L`), and return the pair.  A pure read: no store is
modified. -/
def getitem [ToString β] (infoRows : List (Info β))
    (eegStore : List (String × σ)) (onlineT : Option (σ → σ))
    (labelT : Option (Info β → L)) (index : Nat) :
    Except GetErr (σ × (Info β ⊕ L)) :=
  match infoRows.get? index with
  | none => .error .indexError
  | some info =>
    match infoGet info "clip_id" with
    | none => .error .keyError
    | some v =>
      match readStore eegStore (strOfVal v) with
      | none => .error .keyError
      | some eeg =>
        .ok (applyT onlineT eeg,
          match labelT with
          | some g => Sum.inr (g info)
          | none => Sum.inl info)

instance {ε α : Type} [DecidableEq ε] [DecidableEq α] :
    DecidableEq (Except ε α) := fun x y =>
  match x, y with
  | .error a, .error b =>
    if h : a = b then isTrue (by rw [h]) else isFalse (by simp [h])
  | .ok a, .ok b =>
    if h : a = b then isTrue (by rw [h]) else isFalse (by simp [h])
  | .error _, .ok _ => isFalse (fun he => Except.noConfusion he)
  | .ok _, .error _ => isFalse (fun he => Except.noConfusion he)

/-- After-trial hook returning one complete record followed by one with
all three keys missing. -/
def badHook : List (Record Nat Nat) → List (RawRecord Nat Nat) :=
  fun _ => [rawOf ⟨7, "a", []⟩, ⟨none, none, none⟩]

/-- Scenario sample array: 100 samples (`X` of shape (100, 32, 128);
the per-sample payload is opaque, modelled by its index). -/
def scenX : List Nat := List.range 100

/-- Scenario label array: shape (100, 2). -/
def scenY : NdArray2 Nat :=
  ⟨(List.range 100).map (fun i => [i, 2 * i]), 2⟩

/-- Scenario run of `__io__` on block 0 (no transforms, no hooks). -/
def scenRun0 : IoResult Nat Nat :=
  ioRun none none none 0 (sliceAt scenX (List.range' 0 50))
    ⟨sliceAt scenY.rows (List.range' 0 50), 2⟩

/-- Scenario run of `__io__` on block 1 (no transforms, no hooks). -/
def scenRun1 : IoResult Nat Nat :=
  ioRun none none none 1 (sliceAt scenX (List.range' 50 50))
    ⟨sliceAt scenY.rows (List.range' 50 50), 2⟩

/-- Metadata-row construction succeeds on an in-range write pointer of a
well-formed label array and yields the spec's row. -/
theorem recordInfoFor_ok {β : Type} {y : NdArray2 β} (hwf : y.wf) {wp : Nat}
    {row : List β} (h : y.rows[wp]? = some row) (c : String) :
    recordInfoFor y c wp =
      Except.ok (("clip_id", InfoVal.str c) :: rowEntries row) := by
  have hm : row ∈ y.rows :=
    List.get?_mem (by rw [List.get?_eq_getElem?]; exact h)
  have hr : row.length = y.cols := hwf row hm
  by_cases h0 : y.cols = 0
  · have hrow : row = [] := List.eq_nil_of_length_eq_zero (by omega)
    simp [recordInfoFor, h0, hrow, rowEntries]
  · simp [recordInfoFor, h0, h, ← hr, List.take_length]
    intro hrow
    simp [hrow, rowEntries]

/-- Metadata-row construction raises `IndexError` on an out-of-range
write pointer as soon as the label array has at least one column. -/
theorem recordInfoFor_oob {β : Type} {y : NdArray2 β} (h0 : y.cols ≠ 0)
    {wp : Nat} (h : y.rows[wp]? = none) (c : String) :
    recordInfoFor y c wp = Except.error IoErr.indexError := by
  simp [recordInfoFor, h0, h]

/-- Main-loop characterisation, immediate-write mode (no after-trial
hook): every sample is written, signal then metadata, in order. -/
theorem ioLoop_false_spec {σ β : Type} (t : Option (σ → σ)) (b : Nat)
    (y : NdArray2 β) (hwf : y.wf) (X : List σ) :
    ∀ (wp : Nat) (st : IoState σ β) (q : List (Record σ β)),
      wp + X.length ≤ y.rows.length →
      ioLoop t false b y X wp st q =
        (⟨st.eegWrites ++ (List.enumFrom wp X).map
            (fun p => (mkClipId b p.1, applyT t p.2)),
          st.infoWrites ++ ((List.enumFrom wp X).zip
              ((y.rows.drop wp).take X.length)).map
            (fun p => expectedInfoRow b p.1.1 p.2)⟩, q, none) := by
  induction X with
  | nil => intro wp st q _; simp [ioLoop]
  | cons x xs ih =>
    intro wp st q hle
    have hlt : wp < y.rows.length := by
      simp only [List.length_cons] at hle; omega
    have hget : y.rows[wp]? = some y.rows[wp] :=
      List.getElem?_eq_getElem hlt
    have hdrop : y.rows.drop wp = y.rows[wp] :: y.rows.drop (wp + 1) :=
      List.drop_eq_getElem_cons hlt
    have hrec := ih (wp + 1)
      ⟨st.eegWrites ++ [(mkClipId b wp, applyT t x)],
        st.infoWrites ++ [expectedInfoRow b wp y.rows[wp]]⟩ q
      (by simp only [List.length_cons] at hle; omega)
    simp only [expectedInfoRow] at hrec
    rw [ioLoop, recordInfoFor_ok hwf hget]
    simp only [Bool.false_eq_true, if_false]
    rw [hrec]
    simp only [hdrop, List.enumFrom_cons, List.length_cons,
      List.take_succ_cons, List.zip_cons_cons, List.map_cons,
      expectedInfoRow, List.append_assoc, List.singleton_append]

/-- Main-loop characterisation, buffering mode (after-trial hook
configured): nothing is written, every sample is appended to the trial
queue. -/
theorem ioLoop_true_spec {σ β : Type} (t : Option (σ → σ)) (b : Nat)
    (y : NdArray2 β) (hwf : y.wf) (X : List σ) :
    ∀ (wp : Nat) (st : IoState σ β) (q : List (Record σ β)),
      wp + X.length ≤ y.rows.length →
      ioLoop t true b y X wp st q =
        (st, q ++ ((List.enumFrom wp X).zip
            ((y.rows.drop wp).take X.length)).map
          (fun p => ⟨applyT t p.1.2, mkClipId b p.1.1,
            expectedInfoRow b p.1.1 p.2⟩), none) := by
  induction X with
  | nil => intro wp st q _; simp [ioLoop]
  | cons x xs ih =>
    intro wp st q hle
    have hlt : wp < y.rows.length := by
      simp only [List.length_cons] at hle; omega
    have hget : y.rows[wp]? = some y.rows[wp] :=
      List.getElem?_eq_getElem hlt
    have hdrop : y.rows.drop wp = y.rows[wp] :: y.rows.drop (wp + 1) :=
      List.drop_eq_getElem_cons hlt
    have hrec := ih (wp + 1) st
      (q ++ [⟨applyT t x, mkClipId b wp, expectedInfoRow b wp y.rows[wp]⟩])
      (by simp only [List.length_cons] at hle; omega)
    simp only [expectedInfoRow] at hrec
    have hstep : ioLoop t true b y (x :: xs) wp st q =
        ioLoop t true b y xs (wp + 1) st
          (q ++ [⟨applyT t x, mkClipId b wp,
            ("clip_id", InfoVal.str (mkClipId b wp)) ::
              rowEntries y.rows[wp]⟩]) := by
      rw [ioLoop, recordInfoFor_ok hwf hget]; rfl
    rw [hstep, hrec]
    simp only [hdrop, List.enumFrom_cons, List.length_cons,
      List.take_succ_cons, List.zip_cons_cons, List.map_cons,
      expectedInfoRow, List.append_assoc, List.singleton_append]

/-- Main-loop overrun: with at least one label column and more samples
than label rows, the loop raises `IndexError`. -/
theorem ioLoop_overrun {σ β : Type} (t : Option (σ → σ)) (buffered : Bool)
    (b : Nat) (y : NdArray2 β) (hwf : y.wf) (hc : 1 ≤ y.cols) (X : List σ) :
    ∀ (wp : Nat) (st : IoState σ β) (q : List (Record σ β)),
      wp ≤ y.rows.length → y.rows.length < wp + X.length →
      (ioLoop t buffered b y X wp st q).2.2 = some IoErr.indexError := by
  induction X with
  | nil => intro wp st q hle hgt; simp only [List.length_nil] at hgt; omega
  | cons x xs ih =>
    intro wp st q hle hgt
    rcases Nat.lt_or_ge wp y.rows.length with hlt | hge
    · have hget : y.rows[wp]? = some y.rows[wp] :=
        List.getElem?_eq_getElem hlt
      cases buffered
      · have hstep : ioLoop t false b y (x :: xs) wp st q =
            ioLoop t false b y xs (wp + 1)
              ⟨st.eegWrites ++ [(mkClipId b wp, applyT t x)],
                st.infoWrites ++ [("clip_id", InfoVal.str (mkClipId b wp)) ::
                  rowEntries y.rows[wp]]⟩ q := by
          rw [ioLoop, recordInfoFor_ok hwf hget]; rfl
        rw [hstep]
        exact ih (wp + 1) _ _ (by omega)
          (by simp only [List.length_cons] at hgt; omega)
      · have hstep : ioLoop t true b y (x :: xs) wp st q =
            ioLoop t true b y xs (wp + 1) st
              (q ++ [⟨applyT t x, mkClipId b wp,
                ("clip_id", InfoVal.str (mkClipId b wp)) ::
                  rowEntries y.rows[wp]⟩]) := by
          rw [ioLoop, recordInfoFor_ok hwf hget]; rfl
        rw [hstep]
        exact ih (wp + 1) _ _ (by omega)
          (by simp only [List.length_cons] at hgt; omega)
    · have hnone : y.rows[wp]? = none := by
        simp [List.getElem?_eq_none_iff]; omega
      rw [ioLoop, recordInfoFor_oob (by omega) hnone]

/-- Hook-output write loop on records that all carry the three required
keys: every record is written, no error. -/
theorem writeQueue_ok {σ β : Type} (outs : List (Record σ β)) :
    ∀ st : IoState σ β,
      writeQueue st (outs.map rawOf) =
        (⟨st.eegWrites ++ outs.map (fun r => (r.key, r.eeg)),
          st.infoWrites ++ outs.map Record.info⟩, none) := by
  induction outs with
  | nil => intro st; simp [writeQueue]
  | cons r rs ih =>
    intro st
    simp only [List.map_cons, writeQueue, rawOf]
    rw [ih]
    simp [List.append_assoc, List.singleton_append]

/-- Hook-output write loop when a malformed record follows some
complete ones: the complete prefix is written, the loop stops at the
malformed record with the assertion error. -/
theorem writeQueue_split {σ β : Type} (good : List (Record σ β))
    (bad : RawRecord σ β) (rest : List (RawRecord σ β))
    (hbad : bad.eeg = none ∨ bad.key = none ∨ bad.info = none) :
    ∀ st : IoState σ β,
      writeQueue st (good.map rawOf ++ bad :: rest) =
        (⟨st.eegWrites ++ good.map (fun r => (r.key, r.eeg)),
          st.infoWrites ++ good.map Record.info⟩,
          some IoErr.assertionError) := by
  induction good with
  | nil =>
    intro st
    rcases bad with ⟨a, k, i⟩
    cases a <;> cases k <;> cases i <;> simp_all [writeQueue]
  | cons r rs ih =>
    intro st
    have hstep : writeQueue st ((r :: rs).map rawOf ++ bad :: rest) =
        writeQueue ⟨st.eegWrites ++ [(r.key, r.eeg)],
          st.infoWrites ++ [r.info]⟩ (rs.map rawOf ++ bad :: rest) := by
      rw [List.map_cons, List.cons_append, writeQueue]; rfl
    rw [hstep, ih]
    simp [List.append_assoc, List.singleton_append]

/-- The main loop writes a signal entry and a metadata row in pairs:
it preserves equality of the two stores' record counts. -/
theorem ioLoop_len {σ β : Type} (t : Option (σ → σ)) (buffered : Bool)
    (b : Nat) (y : NdArray2 β) (X : List σ) :
    ∀ (wp : Nat) (st : IoState σ β) (q : List (Record σ β)),
      st.eegWrites.length = st.infoWrites.length →
      (ioLoop t buffered b y X wp st q).1.eegWrites.length =
        (ioLoop t buffered b y X wp st q).1.infoWrites.length := by
  induction X with
  | nil => intro wp st q h; simpa [ioLoop] using h
  | cons x xs ih =>
    intro wp st q h
    cases hri : recordInfoFor y (mkClipId b wp) wp with
    | error e =>
      have hstep : ioLoop t buffered b y (x :: xs) wp st q =
          (st, q, some e) := by
        rw [ioLoop, hri]
      rw [hstep]
      exact h
    | ok inf =>
      cases buffered
      · have hstep : ioLoop t false b y (x :: xs) wp st q =
            ioLoop t false b y xs (wp + 1)
              ⟨st.eegWrites ++ [(mkClipId b wp, applyT t x)],
                st.infoWrites ++ [inf]⟩ q := by
          rw [ioLoop, hri]; rfl
        rw [hstep]
        exact ih _ _ _ (by simp [h])
      · have hstep : ioLoop t true b y (x :: xs) wp st q =
            ioLoop t true b y xs (wp + 1) st
              (q ++ [⟨applyT t x, mkClipId b wp, inf⟩]) := by
          rw [ioLoop, hri]; rfl
        rw [hstep]
        exact ih _ _ _ h

/-- The hook-output write loop also writes in pairs: it preserves
equality of the two stores' record counts. -/
theorem writeQueue_len {σ β : Type} (l : List (RawRecord σ β)) :
    ∀ st : IoState σ β,
      st.eegWrites.length = st.infoWrites.length →
      (writeQueue st l).1.eegWrites.length =
        (writeQueue st l).1.infoWrites.length := by
  induction l with
  | nil => intro st h; simpa [writeQueue] using h
  | cons obj rest ih =>
    intro st h
    rcases obj with ⟨a, k, i⟩
    cases a with
    | none => simpa [writeQueue] using h
    | some e =>
      cases k with
      | none => simpa [writeQueue] using h
      | some k2 =>
        cases i with
        | none => simpa [writeQueue] using h
        | some i2 =>
          simp only [writeQueue]
          exact ih _ (by simp [h])

/-- Sum of `k` sizes where the first `r` are `d + 1` and the rest `d`. -/
theorem sum_split_sizes (d r : Nat) :
    ∀ k : Nat, ((List.range k).map
      (fun i => if i < r then d + 1 else d)).sum = k * d + min r k := by
  intro k
  induction k with
  | zero => simp
  | succ k ih =>
    rw [List.range_succ, List.map_append, List.sum_append, ih, Nat.succ_mul]
    simp only [List.map_cons, List.map_nil, List.sum_cons, List.sum_nil]
    rcases Nat.lt_or_ge k r with hlt | hge
    · rw [if_pos hlt, Nat.min_eq_right hlt.le, Nat.min_eq_right (by omega)]
      omega
    · rw [if_neg (by omega), Nat.min_eq_left hge, Nat.min_eq_left (by omega)]
      omega

/-- The `np.array_split` section sizes sum to the array length. -/
theorem arraySplitSizes_sum (n k : Nat) (hk : 1 ≤ k) :
    (arraySplitSizes n k).sum = n := by
  unfold arraySplitSizes
  rw [sum_split_sizes, Nat.min_eq_left (Nat.mod_lt n (by omega)).le]
  exact Nat.div_add_mod n k

/-- Splitting by sizes yields one chunk per size. -/
theorem splitBySizes_length {α : Type} :
    ∀ (ss : List Nat) (l : List α), (splitBySizes l ss).length = ss.length := by
  intro ss
  induction ss with
  | nil => intro l; rfl
  | cons s ss ih => intro l; simp [splitBySizes, ih]

/-- Concatenating the chunks restores the prefix of the list covered by
the sizes. -/
theorem splitBySizes_flatten {α : Type} :
    ∀ (ss : List Nat) (l : List α),
      (splitBySizes l ss).flatten = l.take ss.sum := by
  intro ss
  induction ss with
  | nil => intro l; simp [splitBySizes]
  | cons s ss ih =>
    intro l
    simp only [splitBySizes, List.flatten_cons, ih, List.sum_cons]
    rw [List.take_add]

/-- Prefix of an arithmetic range of step one. -/
theorem take_range'_eq :
    ∀ (m s a : Nat), (List.range' a m).take s = List.range' a (min s m) := by
  intro m
  induction m with
  | zero => intro s a; simp
  | succ m ih =>
    intro s a
    cases s with
    | zero => simp
    | succ s =>
      simp only [List.range'_succ, List.take_succ_cons, ih,
        Nat.succ_min_succ]

/-- Suffix of an arithmetic range of step one. -/
theorem drop_range'_eq :
    ∀ (m s a : Nat), (List.range' a m).drop s = List.range' (a + s) (m - s) := by
  intro m
  induction m with
  | zero => intro s a; simp
  | succ m ih =>
    intro s a
    cases s with
    | zero => simp
    | succ s =>
      rw [List.range'_succ, List.drop_succ_cons, ih]
      congr 1 <;> omega

/-- Every chunk of a size-split of an arithmetic range is itself an
arithmetic range — i.e. a contiguous index interval. -/
theorem splitBySizes_range'_mem :
    ∀ (ss : List Nat) (a m : Nat) (g : List Nat),
      g ∈ splitBySizes (List.range' a m) ss →
      ∃ s, g = List.range' s g.length := by
  intro ss
  induction ss with
  | nil => intro a m g hg; simp [splitBySizes] at hg
  | cons s ss ih =>
    intro a m g hg
    simp only [splitBySizes, List.mem_cons] at hg
    rcases hg with rfl | hg
    · refine ⟨a, ?_⟩
      rw [take_range'_eq]
      simp [List.length_range']
    · rw [drop_range'_eq] at hg
      exact ih _ _ g hg

/-- Array-branch planning succeeds for `1 ≤ q ≤ N` and returns the
`np.array_split` groups. -/
theorem blockPlanArray_ok (N q : Nat) (hq : 1 ≤ q) (hN : q ≤ N) :
    blockPlanArray N q =
      Except.ok (arraySplit (List.range N) (N / q)) := by
  have h1 : 1 ≤ N / q := (Nat.one_le_div_iff (by omega)).mpr hN
  unfold blockPlanArray
  rw [if_neg (by omega : ¬ q = 0), if_neg (by omega : ¬ N / q = 0)]

/-- C1 counterexample: for `N = 3`, `q = 2` the source produces
`3 // 2 = 1` block, not `ceil(3 / 2) = 2` as the claim states. -/
theorem C1_counterexample :
    blockCount 3 2 ≠ some ((3 + 2 - 1) / 2) ∧ blockCount 3 2 = some 1 := by
  decide

/-- C1 (amended): for array input with `N ≥ q ≥ 1`, `__block__` returns
`N // q` (floor division) block descriptors, not `ceil(N / q)`. -/
theorem C1_block_count_floor {σ β : Type} (a : List σ) (m : NdArray2 β)
    (q : Nat) (hq : 1 ≤ q) (hN : q ≤ a.length) :
    (blockDispatch (XInput.arr a) (YInput.arr m) q).map List.length =
      Except.ok (a.length / q) := by
  have hplan := blockPlanArray_ok a.length q hq hN
  simp only [blockDispatch]
  rw [hplan]
  show Except.ok ((arraySplit (List.range a.length) (a.length / q)).enum.map _
    |>.length) = _
  rw [List.length_map, List.enum_length]
  unfold arraySplit
  rw [splitBySizes_length]
  simp [arraySplitSizes]

/-- C1 witness: three samples with quota two yield one block. -/
theorem C1_block_count_floor_witness :
    (blockDispatch (XInput.arr ([10, 11, 12] : List Nat))
      (YInput.arr (⟨[[0], [1], [2]], 1⟩ : NdArray2 Nat)) 2).map List.length =
      Except.ok 1 :=
  C1_block_count_floor [10, 11, 12] ⟨[[0], [1], [2]], 1⟩ 2 (by decide)
    (by decide)

/-- C2: for `N ≥ q ≥ 1` the index groups `__block__` builds concatenate
to `[0, ..., N-1]` in order, are pairwise disjoint, each contiguous, and
their sizes sum to `N`. -/
theorem C2_partition_properties (N q : Nat) (hq : 1 ≤ q) (hN : q ≤ N)
    (gs : List (List Nat)) (h : blockPlanArray N q = Except.ok gs) :
    gs.flatten = List.range N ∧ List.Pairwise List.Disjoint gs ∧
    (∀ g ∈ gs, ∃ a, g = List.range' a g.length) ∧
    (gs.map List.length).sum = N := by
  have hk : 1 ≤ N / q := (Nat.one_le_div_iff (by omega)).mpr hN
  rw [blockPlanArray_ok N q hq hN] at h
  have hgs : gs = arraySplit (List.range N) (N / q) := (Except.ok.inj h).symm
  subst hgs
  have hsum : (arraySplitSizes (List.range N).length (N / q)).sum = N := by
    rw [List.length_range]
    exact arraySplitSizes_sum N (N / q) hk
  have hflat : (arraySplit (List.range N) (N / q)).flatten = List.range N := by
    unfold arraySplit
    rw [splitBySizes_flatten, hsum, List.take_range]
    simp
  refine ⟨hflat, ?_, ?_, ?_⟩
  · have hnd : (arraySplit (List.range N) (N / q)).flatten.Nodup := by
      rw [hflat]; exact List.nodup_range N
    exact (List.nodup_flatten.mp hnd).2
  · intro g hg
    unfold arraySplit at hg
    rw [List.range_eq_range'] at hg
    exact splitBySizes_range'_mem _ 0 N g hg
  · have hlen := congrArg List.length hflat
    rw [List.length_flatten, List.length_range] at hlen
    exact hlen

/-- C2 witness: four indices split with quota two give the two
contiguous halves, whose concatenation is `[0, 1, 2, 3]`. -/
theorem C2_partition_properties_witness :
    ([[0, 1], [2, 3]] : List (List Nat)).flatten = List.range 4 :=
  (C2_partition_properties 4 2 (by decide) (by decide) [[0, 1], [2, 3]]
    (by rfl)).1

/-- C7: mixing an in-memory array with a path list (either way around)
makes `__block__` raise `ValueError` and return no block descriptors. -/
theorem C7_mixed_input_rejected {σ β : Type} (a : List σ)
    (ps : List String) (m : NdArray2 β) (q : Nat) :
    blockDispatch (σ := σ) (β := β) (XInput.arr a) (YInput.paths ps) q =
      Except.error BlockErr.configError ∧
    blockDispatch (σ := σ) (XInput.paths ps) (YInput.arr m) q =
      Except.error BlockErr.configError :=
  ⟨rfl, rfl⟩

/-- C8: array input with fewer samples than the per-worker quota makes
`__block__` fail with the planning error (zero sections requested from
`np.array_split`), not return an empty or zero-length block. -/
theorem C8_planning_error {σ β : Type} (a : List σ) (m : NdArray2 β)
    (q : Nat) (hq : 1 ≤ q) (hlt : a.length < q) :
    blockDispatch (XInput.arr a) (YInput.arr m) q =
      Except.error BlockErr.planningError := by
  have h0 : a.length / q = 0 := Nat.div_eq_of_lt hlt
  have hp : blockPlanArray a.length q = Except.error BlockErr.planningError := by
    unfold blockPlanArray
    rw [if_neg (by omega : ¬ q = 0), if_pos h0]
  simp only [blockDispatch]
  rw [hp]
  rfl

/-- C8 witness: two samples with quota three fail with the planning
error. -/
theorem C8_planning_error_witness :
    blockDispatch (XInput.arr ([10, 11] : List Nat))
      (YInput.arr (⟨[[0], [1]], 1⟩ : NdArray2 Nat)) 3 =
      Except.error BlockErr.planningError :=
  C8_planning_error [10, 11] ⟨[[0], [1]], 1⟩ 3 (by decide) (by decide)

/-- Run-level characterisation of `__io__` without an after-trial hook:
one signal write and one metadata row per sample of the working array,
in order. -/
theorem ioRun_noafter_spec {σ β : Type} (before : Option (List σ → List σ))
    (t : Option (σ → σ)) (b : Nat) (X : List σ) (y : NdArray2 β)
    (hwf : y.wf) (hlen : (applyBefore before X).length ≤ y.rows.length) :
    ioRun before t none b X y =
      ⟨⟨(applyBefore before X).enum.map
          (fun p => (mkClipId b p.1, applyT t p.2)),
        ((applyBefore before X).enum.zip
            (y.rows.take (applyBefore before X).length)).map
          (fun p => expectedInfoRow b p.1.1 p.2)⟩, none⟩ := by
  unfold ioRun
  simp only [Option.isSome_none]
  rw [ioLoop_false_spec t b y hwf (applyBefore before X) 0 emptyState []
    (by simpa using hlen)]
  simp [emptyState, List.enum, List.drop_zero]

/-- C3: without an after-trial hook each sample at local index `i`
yields exactly one signal write keyed `"{b}_{i}"` and one metadata row
`{'clip_id': clip_id} ∪ {str(j): y[i][j]}`; in particular the spec's
(100, 32, 128) / (100, 2) / quota-50 scenario yields 2 blocks, 100
records with clip_ids `"0_0".."0_49"`, `"1_0".."1_49"`, and rows keyed
`clip_id`, `"0"`, `"1"`. -/
theorem C3_per_sample_records :
    (∀ (σ β : Type) (t : Option (σ → σ)) (b : Nat) (X : List σ)
       (y : NdArray2 β), y.wf → X.length ≤ y.rows.length →
      ioRun none t none b X y =
        ⟨⟨X.enum.map (fun p => (mkClipId b p.1, applyT t p.2)),
          (X.enum.zip (y.rows.take X.length)).map
            (fun p => expectedInfoRow b p.1.1 p.2)⟩, none⟩) ∧
    ((blockDispatch (XInput.arr scenX) (YInput.arr scenY) 50).map
        List.length = Except.ok 2 ∧
     blockDispatch (XInput.arr scenX) (YInput.arr scenY) 50 = Except.ok
       [BlockDescr.fromArrays (sliceAt scenX (List.range' 0 50))
         ⟨sliceAt scenY.rows (List.range' 0 50), 2⟩ 0,
        BlockDescr.fromArrays (sliceAt scenX (List.range' 50 50))
         ⟨sliceAt scenY.rows (List.range' 50 50), 2⟩ 1] ∧
     scenRun0.err = none ∧ scenRun1.err = none ∧
     scenRun0.state.infoWrites.length +
       scenRun1.state.infoWrites.length = 100 ∧
     scenRun0.state.eegWrites.map Prod.fst =
       (List.range 50).map (mkClipId 0) ∧
     scenRun1.state.eegWrites.map Prod.fst =
       (List.range 50).map (mkClipId 1) ∧
     (∀ row ∈ scenRun0.state.infoWrites ++ scenRun1.state.infoWrites,
       row.map Prod.fst = ["clip_id", "0", "1"])) := by
  constructor
  · intro σ β t b X y hwf hlen
    have hs := ioRun_noafter_spec none t b X y hwf
      (by simpa [applyBefore] using hlen)
    simpa [applyBefore] using hs
  · decide

/-- C3 witness: one sample, one two-column label row. -/
theorem C3_per_sample_records_witness :
    ioRun (σ := Nat) (β := Nat) none none none 0 [10] ⟨[[1, 2]], 2⟩ =
      ⟨⟨[("0_0", 10)],
        [[("clip_id", InfoVal.str "0_0"), ("0", InfoVal.val 1),
          ("1", InfoVal.val 2)]]⟩, none⟩ := by
  have h := C3_per_sample_records.1 Nat Nat none 0 [10] ⟨[[1, 2]], 2⟩
    (by decide) (by decide)
  simpa [expectedInfoRow, rowEntries, mkClipId, applyT] using h

/-- C4: every write path of `__io__` appends a signal entry and a
metadata row together, so — whatever the hooks and transforms do, and
whether the block run succeeds or raises — the two stores always end up
with equally many records. -/
theorem C4_paired_write_counts {σ β : Type}
    (before : Option (List σ → List σ)) (t : Option (σ → σ))
    (after : Option (List (Record σ β) → List (RawRecord σ β)))
    (b : Nat) (X : List σ) (y : NdArray2 β) :
    (ioRun before t after b X y).state.eegWrites.length =
      (ioRun before t after b X y).state.infoWrites.length := by
  unfold ioRun
  cases after with
  | none =>
    simp only [Option.isSome_none]
    rcases hl : ioLoop t false b y (applyBefore before X) 0
      emptyState [] with ⟨st, q, err⟩
    have hst : st.eegWrites.length = st.infoWrites.length := by
      have h0 := ioLoop_len t false b y (applyBefore before X) 0
        emptyState [] rfl
      rw [hl] at h0
      exact h0
    cases err with
    | some e => simpa [hl] using hst
    | none => simpa [hl] using hst
  | some h =>
    simp only [Option.isSome_some]
    rcases hl : ioLoop t true b y (applyBefore before X) 0
      emptyState [] with ⟨st, q, err⟩
    have hst : st.eegWrites.length = st.infoWrites.length := by
      have h0 := ioLoop_len t true b y (applyBefore before X) 0
        emptyState [] rfl
      rw [hl] at h0
      exact h0
    cases err with
    | some e => simpa [hl] using hst
    | none =>
      by_cases hq : q.isEmpty
      · simpa [hl, hq] using hst
      · rcases hw : writeQueue st (h q) with ⟨st2, e2⟩
        have hst2 : st2.eegWrites.length = st2.infoWrites.length := by
          have h0 := writeQueue_len (h q) st hst
          rw [hw] at h0
          exact h0
        simpa [hl, hq, hw] using hst2

/-- C5 counterexample: `badHook` returns a complete record followed by a
record missing all three keys; the run raises the validation error, yet
the first returned record has already been written to the stores —
refuting the claim that no hook-returned record is written. -/
theorem C5_counterexample :
    (ioRun none none (some badHook) 0 [3]
      (⟨[[4]], 1⟩ : NdArray2 Nat)).err = some IoErr.assertionError ∧
    (ioRun none none (some badHook) 0 [3]
      (⟨[[4]], 1⟩ : NdArray2 Nat)).state.eegWrites = [("a", 7)] := by
  decide

/-- C5 (amended): the after-trial output is validated per record,
interleaved with the writes: the complete records preceding the first
malformed one are written, then the validation error is raised and the
malformed record and everything after it stay unwritten. -/
theorem C5_per_record_validation {σ β : Type} (b : Nat)
    (t : Option (σ → σ)) (X : List σ) (y : NdArray2 β)
    (good : List (Record σ β)) (bad : RawRecord σ β)
    (rest : List (RawRecord σ β)) (hX : X ≠ []) (hwf : y.wf)
    (hlen : X.length ≤ y.rows.length)
    (hbad : bad.eeg = none ∨ bad.key = none ∨ bad.info = none) :
    ioRun none t (some (fun _ => good.map rawOf ++ bad :: rest)) b X y =
      ⟨⟨good.map (fun r => (r.key, r.eeg)), good.map Record.info⟩,
        some IoErr.assertionError⟩ := by
  unfold ioRun
  simp only [Option.isSome_some, applyBefore]
  rw [ioLoop_true_spec t b y hwf X 0 emptyState [] (by simpa using hlen)]
  have h1 : (y.rows.take X.length).length = X.length := by
    rw [List.length_take]
    exact Nat.min_eq_left hlen
  set Q := ((List.enumFrom 0 X).zip ((y.rows.drop 0).take X.length)).map
    (fun p => (⟨applyT t p.1.2, mkClipId b p.1.1,
      expectedInfoRow b p.1.1 p.2⟩ : Record σ β)) with hQ
  have hQlen : Q.length = X.length := by
    rw [hQ, List.length_map, List.length_zip, List.enumFrom_length,
      List.drop_zero, h1, Nat.min_self]
  have hQe : ([] ++ Q).isEmpty = false := by
    rw [List.nil_append]
    cases hq : Q with
    | nil =>
      exfalso
      apply hX
      rw [hq] at hQlen
      exact (List.eq_nil_of_length_eq_zero hQlen.symm)
    | cons r rs => rfl
  simp only [hQe, Bool.false_eq_true, if_false]
  rw [writeQueue_split good bad rest hbad emptyState]
  simp [emptyState]

/-- C5 witness: an empty prefix before the malformed record — the run
raises the assertion error with nothing written. -/
theorem C5_per_record_validation_witness :
    ioRun none none
      (some (fun _ => ([] : List (Record Nat Nat)).map rawOf ++
        (⟨none, none, none⟩ : RawRecord Nat Nat) :: [])) 0 [3]
      (⟨[[4]], 1⟩ : NdArray2 Nat) =
      ⟨⟨[], []⟩, some IoErr.assertionError⟩ :=
  C5_per_record_validation 0 none [3] ⟨[[4]], 1⟩ [] ⟨none, none, none⟩ []
    (by decide) (by decide) (by decide) (Or.inl rfl)

/-- C6 counterexample: a before-trial hook that drops one of two
samples changes the leading dimension, yet the block raises no error —
it silently writes one record — refuting the claim that every changed
count raises. -/
theorem C6_counterexample :
    ((fun l => List.take 1 l) ([5, 6] : List Nat)).length ≠
      ([5, 6] : List Nat).length ∧
    (ioRun (some (fun l => List.take 1 l)) none none 0
      ([5, 6] : List Nat) (⟨[[1], [2]], 1⟩ : NdArray2 Nat)).err = none ∧
    (ioRun (some (fun l => List.take 1 l)) none none 0
      ([5, 6] : List Nat)
      (⟨[[1], [2]], 1⟩ : NdArray2 Nat)).state.infoWrites.length = 1 := by
  decide

/-- C6 (amended): with a before-trial hook and no after-trial hook, the
block raises (an `IndexError` from the label lookup) exactly when the
hook's output has more samples than the label array has rows and there
is at least one label column; when the output has at most as many
samples as label rows — in particular whenever the hook shrinks the
sample count — the block succeeds silently, writing one record per
output sample. -/
theorem C6_before_trial_count_behaviour {σ β : Type}
    (f : List σ → List σ) (t : Option (σ → σ)) (b : Nat) (X : List σ)
    (y : NdArray2 β) (hwf : y.wf) (_hXy : X.length = y.rows.length) :
    ((f X).length ≤ y.rows.length →
      (ioRun (some f) t none b X y).err = none ∧
      (ioRun (some f) t none b X y).state.infoWrites.length =
        (f X).length) ∧
    (1 ≤ y.cols → y.rows.length < (f X).length →
      (ioRun (some f) t none b X y).err = some IoErr.indexError) := by
  constructor
  · intro hle
    have hs := ioRun_noafter_spec (some f) t b X y hwf
      (by simpa [applyBefore] using hle)
    rw [hs]
    refine ⟨rfl, ?_⟩
    have h1 : (y.rows.take (applyBefore (some f) X).length).length =
        (applyBefore (some f) X).length := by
      rw [List.length_take]
      exact Nat.min_eq_left (by simpa [applyBefore] using hle)
    simp [applyBefore, List.length_zip, List.enum_length, h1]
    simpa [applyBefore] using hle
  · intro hc hgt
    have herr := ioLoop_overrun t false b y hwf hc (f X) 0 emptyState []
      (by omega) (by simpa using hgt)
    unfold ioRun
    simp only [Option.isSome_none, applyBefore]
    rcases hl : ioLoop t false b y (f X) 0 emptyState []
      with ⟨st, q, err⟩
    rw [hl] at herr
    have herr2 : err = some IoErr.indexError := herr
    subst herr2
    rfl

/-- C6 witness: a hook doubling the sample count raises the index
error. -/
theorem C6_before_trial_count_behaviour_witness :
    (ioRun (some (fun l => l ++ l)) none none 0 ([5] : List Nat)
      (⟨[[1]], 1⟩ : NdArray2 Nat)).err = some IoErr.indexError :=
  (C6_before_trial_count_behaviour (fun l => l ++ l) none 0 [5]
    ⟨[[1]], 1⟩ (by decide) (by decide)).2 (by decide) (by decide)

/-- C9: on a resolvable index (row exists, `clip_id` present, signal
stored under it) `__getitem__` returns the stored signal — transformed
by the online transform exactly when one is configured — paired with the
raw metadata row, or with the label transform's output field when a
label transform is configured.  The function reads only; it returns no
modified store. -/
theorem C9_getitem_read_path {σ β L : Type} [ToString β]
    (infoRows : List (Info β)) (eegStore : List (String × σ))
    (index : Nat) (info : Info β) (v : InfoVal β) (eeg : σ)
    (h1 : infoRows.get? index = some info)
    (h2 : infoGet info "clip_id" = some v)
    (h3 : readStore eegStore (strOfVal v) = some eeg) :
    (getitem (L := L) infoRows eegStore none none index =
      Except.ok (eeg, Sum.inl info)) ∧
    (∀ f : σ → σ, getitem (L := L) infoRows eegStore (some f) none index =
      Except.ok (f eeg, Sum.inl info)) ∧
    (∀ g : Info β → L, getitem infoRows eegStore none (some g) index =
      Except.ok (eeg, Sum.inr (g info))) ∧
    (∀ (f : σ → σ) (g : Info β → L),
      getitem infoRows eegStore (some f) (some g) index =
        Except.ok (f eeg, Sum.inr (g info))) := by
  have h1g : infoRows[index]? = some info := by
    rw [← List.get?_eq_getElem?]
    exact h1
  refine ⟨?_, fun f => ?_, fun g => ?_, fun f g => ?_⟩ <;>
    simp [getitem, h1g, h2, h3, applyT]

/-- C9 witness: a one-row store resolves index 0 without transforms. -/
theorem C9_getitem_read_path_witness :
    getitem (L := Nat) [[("clip_id", InfoVal.str "0_0")]]
      ([("0_0", 42)] : List (String × Nat)) none none 0 =
      Except.ok (42, Sum.inl [("clip_id", InfoVal.str (β := Nat) "0_0")]) :=
  (C9_getitem_read_path [[("clip_id", InfoVal.str "0_0")]] [("0_0", 42)]
    0 [("clip_id", InfoVal.str "0_0")] (InfoVal.str "0_0") 42 rfl rfl
    rfl).1

/-- C10: with an after-trial hook, the records persisted for a block are
exactly those the hook returns — signal from `eeg`, store key from
`key`, metadata row from `info` — so the hook may drop, add or re-key
records; and a block that buffers no records never invokes the hook (the
run is the same for any two hooks) and writes nothing. -/
theorem C10_after_trial_exact :
    (∀ (σ β : Type) (t : Option (σ → σ)) (b : Nat) (X : List σ)
       (y : NdArray2 β) (outs : List (Record σ β))
       (h : List (Record σ β) → List (RawRecord σ β)),
      X ≠ [] → y.wf → X.length ≤ y.rows.length →
      (∀ q, h q = outs.map rawOf) →
      ioRun none t (some h) b X y =
        ⟨⟨outs.map (fun r => (r.key, r.eeg)), outs.map Record.info⟩,
          none⟩) ∧
    (∀ (σ β : Type) (before : Option (List σ → List σ))
       (t : Option (σ → σ)) (b : Nat) (X : List σ) (y : NdArray2 β)
       (h1 h2 : List (Record σ β) → List (RawRecord σ β)),
      applyBefore before X = [] →
      ioRun before t (some h1) b X y = ioRun before t (some h2) b X y ∧
      ioRun before t (some h1) b X y = ⟨emptyState, none⟩) := by
  constructor
  · intro σ β t b X y outs h hX hwf hlen hh
    unfold ioRun
    simp only [Option.isSome_some, applyBefore]
    rw [ioLoop_true_spec t b y hwf X 0 emptyState [] (by simpa using hlen)]
    have hT : (y.rows.take X.length).length = X.length := by
      rw [List.length_take]
      exact Nat.min_eq_left hlen
    set Q := ((List.enumFrom 0 X).zip ((y.rows.drop 0).take X.length)).map
      (fun p => (⟨applyT t p.1.2, mkClipId b p.1.1,
        expectedInfoRow b p.1.1 p.2⟩ : Record σ β)) with hQ
    have hQlen : Q.length = X.length := by
      rw [hQ, List.length_map, List.length_zip, List.enumFrom_length,
        List.drop_zero, hT, Nat.min_self]
    have hQe : ([] ++ Q).isEmpty = false := by
      rw [List.nil_append]
      cases hq : Q with
      | nil =>
        exfalso
        apply hX
        rw [hq] at hQlen
        exact (List.eq_nil_of_length_eq_zero hQlen.symm)
      | cons r rs => rfl
    simp only [hQe, Bool.false_eq_true, if_false]
    rw [hh ([] ++ Q), writeQueue_ok outs emptyState]
    simp [emptyState]
  · intro σ β before t b X y h1 h2 hempty
    unfold ioRun
    simp only [Option.isSome_some, hempty]
    constructor <;> rfl

/-- C10 witness: a hook replacing the buffered record by one fresh
record persists exactly that record. -/
theorem C10_after_trial_exact_witness :
    ioRun none none
      (some (fun _ => [rawOf (⟨9, "k", []⟩ : Record Nat Nat)])) 0 [3]
      (⟨[[4]], 1⟩ : NdArray2 Nat) =
      ⟨⟨[("k", 9)], [[]]⟩, none⟩ :=
  C10_after_trial_exact.1 Nat Nat none 0 [3] ⟨[[4]], 1⟩ [⟨9, "k", []⟩]
    (fun _ => [rawOf ⟨9, "k", []⟩]) (by decide) (by decide) (by decide)
    (fun q => rfl)

end NumpyDS
